import Mathlib

set_option autoImplicit false

/-!
Verification development for the pibeatsaber repository.

Covered here: the historian connection core declared in src/ui/historian.h
(its implementation file is not part of src/, so its behaviour is modelled
from the design document) and the cairo software-buffer helpers implemented
in src/ui/cairo.c.
-/

/-- Embedding of `enum historian_state_t` from src/ui/historian.h (lines
29 to 33): the connection-state values a historian handle can hold. -/
inductive historian_state_t where
  | UNCONNECTED
  | CONNECTED_WAITING
  | CONNECTED_READY
deriving DecidableEq, Fintype

open historian_state_t

/-- Abstraction of the dynamic fields of `struct historian_t` from
src/ui/historian.h: `connection_state` is the enum field, `fd_open` records
whether `historian_fd` holds a valid open descriptor, `running` is the
shutdown flag, and `freed` records that `historian_free` has returned. -/
structure historian_t where
  connection_state : historian_state_t
  fd_open : Bool
  running : Bool
  freed : Bool
deriving DecidableEq

/-- Observable events on a historian handle. `deliver_event` is one
invocation of the consumer callback with one decoded record. -/
inductive historian_event where
  | open_success
  | open_failure
  | handshake_ok
  | handshake_fail
  | deliver_event
  | receive_exit
  | free_request
  | free_complete
deriving DecidableEq

/-- Modelled from the spec: the transitions of the connect supervisor, the
receive loop and `historian_free` (the historian implementation file is not
under src/). The supervisor attempts the transport open while the state
field reads UNCONNECTED (the header enum has no separate in-flight value),
stores the descriptor and moves to CONNECTED_WAITING on success, moves to
CONNECTED_READY after the readiness handshake, and returns to UNCONNECTED
with the descriptor closed when the handshake or the session fails.
`historian_free` clears `running`, closes any open descriptor, and only
returns (`free_complete`) after the workers have terminated. -/
inductive historian_step : historian_t → historian_event → historian_t → Prop where
  | open_success (s : historian_t) :
      s.running = true → s.freed = false → s.connection_state = UNCONNECTED →
      historian_step s .open_success
        { s with connection_state := CONNECTED_WAITING, fd_open := true }
  | open_failure (s : historian_t) :
      s.running = true → s.freed = false → s.connection_state = UNCONNECTED →
      historian_step s .open_failure s
  | handshake_ok (s : historian_t) :
      s.connection_state = CONNECTED_WAITING →
      historian_step s .handshake_ok { s with connection_state := CONNECTED_READY }
  | handshake_fail (s : historian_t) :
      s.connection_state = CONNECTED_WAITING →
      historian_step s .handshake_fail
        { s with connection_state := UNCONNECTED, fd_open := false }
  | deliver_event (s : historian_t) :
      s.connection_state = CONNECTED_READY →
      historian_step s .deliver_event s
  | receive_exit (s : historian_t) :
      s.connection_state = CONNECTED_READY →
      historian_step s .receive_exit
        { s with connection_state := UNCONNECTED, fd_open := false }
  | free_request (s : historian_t) :
      s.freed = false →
      historian_step s .free_request
        { s with running := false, fd_open := false, connection_state := UNCONNECTED }
  | free_complete (s : historian_t) :
      s.running = false → s.freed = false →
      historian_step s .free_complete { s with freed := true }

/-- Modelled from the spec: the handle `historian_connect` returns, with
state UNCONNECTED, no open descriptor, and the running flag set. -/
def historian_init : historian_t :=
  { connection_state := UNCONNECTED, fd_open := false, running := true, freed := false }

/-- States of a historian handle reachable from the handle `historian_connect`
returns. -/
inductive historian_reachable : historian_t → Prop where
  | init : historian_reachable historian_init
  | step {s : historian_t} {e : historian_event} {t : historian_t} :
      historian_reachable s → historian_step s e t → historian_reachable t

/-- Proposition that from state `s` the listed events can occur in order,
ending in state `t`. -/
inductive historian_trace : historian_t → List historian_event → historian_t → Prop where
  | nil (s : historian_t) : historian_trace s [] s
  | cons {s t u : historian_t} {e : historian_event} {es : List historian_event} :
      historian_step s e t → historian_trace t es u → historian_trace s (e :: es) u

/-- Combined safety invariant of the modelled lifecycle: once `running` is
cleared the descriptor is closed and the state reads UNCONNECTED; a freed
handle has `running` cleared; and the descriptor is open exactly in the two
connected states. -/
theorem historian_inv_of_reachable {s : historian_t} (h : historian_reachable s) :
    (s.running = false → s.fd_open = false ∧ s.connection_state = UNCONNECTED) ∧
    (s.freed = true → s.running = false) ∧
    (s.fd_open = true ↔
      (s.connection_state = CONNECTED_WAITING ∨ s.connection_state = CONNECTED_READY)) := by
  induction h with
  | init => simp [historian_init]
  | step hr hstep ih =>
      obtain ⟨ih1, ih2, ih3⟩ := ih
      cases hstep with
      | open_success hrun hfree hst => simp_all
      | open_failure hrun hfree hst => simp_all
      | handshake_ok hst => simp_all
      | handshake_fail hst => simp_all
      | deliver_event hst => simp_all
      | receive_exit hst => simp_all
      | free_request hfree => simp_all
      | free_complete hrun hfree => simp_all

/-- Helper: from a reachable state that `historian_free` has completed on,
no step of the modelled lifecycle is possible at all. -/
theorem historian_freed_no_step {s : historian_t} {e : historian_event} {t : historian_t}
    (hs : historian_reachable s) (hf : s.freed = true) (hstep : historian_step s e t) :
    False := by
  obtain ⟨h1, h2, h3⟩ := historian_inv_of_reachable hs
  have hrun := h2 hf
  obtain ⟨hfd, hst⟩ := h1 hrun
  cases hstep <;> simp_all

/-- State of the modelled handle after `historian_free` has returned on a
handle that never connected. -/
def historian_after_free : historian_t :=
  { connection_state := UNCONNECTED, fd_open := false, running := false, freed := true }

/-- Claim C1 counterexample: the connection-state field of a historian
handle does not range over four values; `enum historian_state_t` in
src/ui/historian.h declares only three enumerators, and in particular no
CONNECTING value exists. -/
theorem historian_state_not_four_valued : ¬ Fintype.card historian_state_t = 4 := by
  decide

/-- Claim C1 (amended): the connection-state field takes exactly one of the
three values UNCONNECTED, CONNECTED_WAITING, CONNECTED_READY; there is no
separate CONNECTING value, and in the modelled lifecycle the transport-open
attempt is made while the field still reads UNCONNECTED. -/
theorem historian_state_three_valued :
    Fintype.card historian_state_t = 3 ∧
    ∀ s : historian_state_t,
      s = UNCONNECTED ∨ s = CONNECTED_WAITING ∨ s = CONNECTED_READY := by
  exact ⟨by decide, fun s => by cases s <;> simp⟩

/-- Claim C2: for a handle produced by `historian_connect`, in any reachable
state in which `historian_free` has returned, every subsequent trace of the
modelled lifecycle contains no callback invocation and ends with the
transport descriptor closed. -/
theorem historian_free_quiescent {s : historian_t} (hs : historian_reachable s)
    (hf : s.freed = true) {es : List historian_event} {t : historian_t}
    (ht : historian_trace s es t) :
    historian_event.deliver_event ∉ es ∧ t.fd_open = false := by
  cases ht with
  | nil =>
      refine ⟨by simp, ?_⟩
      obtain ⟨h1, h2, h3⟩ := historian_inv_of_reachable hs
      exact (h1 (h2 hf)).1
  | cons hstep htrace => exact (historian_freed_no_step hs hf hstep).elim

/-- Witness for claim C2, at the concrete freed state reached by calling
`historian_free` on a handle that never connected. -/
theorem historian_free_quiescent_witness :
    historian_event.deliver_event ∉ ([] : List historian_event) ∧
      historian_after_free.fd_open = false :=
  historian_free_quiescent (s := historian_after_free)
    (historian_reachable.step
      (historian_reachable.step historian_reachable.init
        (historian_step.free_request historian_init rfl))
      (historian_step.free_complete _ rfl rfl))
    rfl (historian_trace.nil historian_after_free)

/-- Claim C4: in every reachable state of the modelled handle, the transport
descriptor is open if and only if the connection state is CONNECTED_WAITING
or CONNECTED_READY; in particular CONNECTED_READY is never reported while
the descriptor is closed. -/
theorem historian_fd_state_iff {s : historian_t} (hs : historian_reachable s) :
    s.fd_open = true ↔
      (s.connection_state = CONNECTED_WAITING ∨ s.connection_state = CONNECTED_READY) :=
  (historian_inv_of_reachable hs).2.2

/-- Witness for claim C4, at the initial state returned by
`historian_connect`. -/
theorem historian_fd_state_iff_witness :
    historian_init.fd_open = true ↔
      (historian_init.connection_state = CONNECTED_WAITING ∨
        historian_init.connection_state = CONNECTED_READY) :=
  historian_fd_state_iff historian_reachable.init

/-- Modelled from the spec: the error taxonomy entry that
`historian_connect` can report. Only allocation failure is caller-visible. -/
inductive historian_error where
  | AllocationError
deriving DecidableEq

/-- Modelled from the spec: the environment a call to `historian_connect`
runs in — whether the handle allocation, the synchronization-primitive
creation and the worker-task spawn succeed, and whether the endpoint could
be connected to immediately (the supervisor's concern, not the call's). -/
structure connect_env where
  handle_alloc_ok : Bool
  sync_alloc_ok : Bool
  task_spawn_ok : Bool
  endpoint_reachable : Bool
deriving DecidableEq

/-- Modelled from the spec: `historian_connect` (declared in
src/ui/historian.h line 46; its implementation file is not under src/)
allocates the handle with state UNCONNECTED and the running flag set,
starts the supervisor worker, and returns the handle; it reports
AllocationError exactly when resource creation fails. -/
def historian_connect (env : connect_env) : Except historian_error historian_t :=
  if env.handle_alloc_ok && env.sync_alloc_ok && env.task_spawn_ok then
    Except.ok historian_init
  else
    Except.error historian_error.AllocationError

/-- Claim C5: `historian_connect` reports AllocationError exactly when the
handle, its synchronization primitives or its worker task cannot be
created, and its result is independent of whether the endpoint can be
connected to immediately. -/
theorem historian_connect_error_iff (env : connect_env) :
    (historian_connect env = Except.error historian_error.AllocationError ↔
      (env.handle_alloc_ok && env.sync_alloc_ok && env.task_spawn_ok) = false) ∧
    historian_connect { env with endpoint_reachable := true } = historian_connect env ∧
    historian_connect { env with endpoint_reachable := false } = historian_connect env := by
  obtain ⟨h1, h2, h3, h4⟩ := env
  cases h1 <;> cases h2 <;> cases h3 <;> cases h4 <;> simp [historian_connect]

/-- Embedding of the auto-generated declaration section of
src/ui/historian.h (lines 45 to 48): the public operations on a historian
handle, one value per declared function. -/
inductive historian_api where
  | historian_connect_decl
  | historian_free_decl
deriving DecidableEq, Fintype

/-- Number of arguments of each declared public operation:
`historian_connect` takes the socket path and the event callback,
`historian_free` takes the handle. -/
def historian_api_arity : historian_api → Nat
  | .historian_connect_decl => 2
  | .historian_free_decl => 1

/-- Claim C7: the public lifecycle surface of the connection core consists
of exactly two operations, a two-argument connect and a one-argument free;
no other operation is declared. -/
theorem historian_api_surface :
    Fintype.card historian_api = 2 ∧
    (Finset.univ : Finset historian_api) =
      {historian_api.historian_connect_decl, historian_api.historian_free_decl} ∧
    historian_api_arity historian_api.historian_connect_decl = 2 ∧
    historian_api_arity historian_api.historian_free_decl = 1 := by
  refine ⟨by decide, by decide, rfl, rfl⟩

/-- Modelled from the spec: the delimiter byte the framing rule uses to
terminate each record on the wire (the framing rule is collaborator-defined;
the spec names delimiter-terminated framing as the shape it must have). -/
def record_delimiter : Nat := 10

/-- Modelled from the spec: scan a byte sequence, splitting it at delimiter
bytes into the list of complete records seen so far and the unterminated
remainder; `acc` holds the bytes of the current record, most recent first. -/
def deframe_aux (acc : List Nat) : List Nat → List (List Nat) × List Nat
  | [] => ([], acc.reverse)
  | c :: rest =>
      if c = record_delimiter then
        (acc.reverse :: (deframe_aux [] rest).1, (deframe_aux [] rest).2)
      else
        deframe_aux (c :: acc) rest

/-- Records and remainder extracted from a byte sequence by the framing
rule, starting with an empty current record. -/
def deframe (bs : List Nat) : List (List Nat) × List Nat := deframe_aux [] bs

/-- Modelled from the spec: the receive loop reads one chunk of bytes at a
time (partial reads), keeps unconsumed bytes across iterations, delivers
each completed record to the callback in order, and exits when the
transport reports end of stream. The returned list is the sequence of
callback invocations of the session, in order. -/
def receive_loop (buf : List Nat) : List (List Nat) → List (List Nat)
  | [] => []
  | chunk :: more =>
      (deframe (buf ++ chunk)).1 ++ receive_loop (deframe (buf ++ chunk)).2 more

/-- Byte sequence a well-formed session carrying the given records puts on
the wire: each record followed by the delimiter. -/
def encode_records (rs : List (List Nat)) : List Nat :=
  (rs.map (fun r => r ++ [record_delimiter])).flatten

theorem deframe_aux_nil (acc : List Nat) : deframe_aux acc [] = ([], acc.reverse) := rfl

theorem deframe_aux_delim (acc rest : List Nat) :
    deframe_aux acc (record_delimiter :: rest) =
      (acc.reverse :: (deframe_aux [] rest).1, (deframe_aux [] rest).2) := by
  simp [deframe_aux]

theorem deframe_aux_cons (acc : List Nat) {c : Nat} (hc : c ≠ record_delimiter)
    (rest : List Nat) :
    deframe_aux acc (c :: rest) = deframe_aux (c :: acc) rest := by
  simp [deframe_aux, hc]

theorem deframe_eq (bs : List Nat) : deframe bs = deframe_aux [] bs := rfl

theorem deframe_aux_no_delim (p : List Nat) :
    ∀ (acc b : List Nat), record_delimiter ∉ p →
      deframe_aux acc (p ++ b) = deframe_aux (p.reverse ++ acc) b := by
  induction p with
  | nil => intro acc b _; simp
  | cons c p ih =>
      intro acc b hp
      have hc : c ≠ record_delimiter := fun h => hp (by simp [h])
      have hp' : record_delimiter ∉ p := fun h => hp (List.mem_cons_of_mem _ h)
      rw [List.cons_append, deframe_aux_cons acc hc, ih (c :: acc) b hp']
      congr 1
      simp

theorem deframe_aux_all (acc p : List Nat) (hp : record_delimiter ∉ p) :
    deframe_aux acc p = ([], acc.reverse ++ p) := by
  have h := deframe_aux_no_delim p acc [] hp
  simp only [List.append_nil] at h
  rw [h]
  simp [deframe_aux]

theorem deframe_aux_snd_no_delim :
    ∀ (bs acc : List Nat), record_delimiter ∉ acc →
      record_delimiter ∉ (deframe_aux acc bs).2 := by
  intro bs
  induction bs with
  | nil =>
      intro acc h
      simpa [deframe_aux] using h
  | cons c rest ih =>
      intro acc h
      by_cases hc : c = record_delimiter
      · subst hc
        rw [deframe_aux_delim]
        exact ih [] (by simp)
      · rw [deframe_aux_cons acc hc]
        refine ih (c :: acc) ?_
        intro hmem
        rcases List.mem_cons.mp hmem with h1 | h2
        · exact hc h1.symm
        · exact h h2

theorem deframe_aux_append :
    ∀ (a acc b : List Nat), record_delimiter ∉ acc →
      deframe_aux acc (a ++ b) =
        ((deframe_aux acc a).1 ++ (deframe ((deframe_aux acc a).2 ++ b)).1,
         (deframe ((deframe_aux acc a).2 ++ b)).2) := by
  intro a
  induction a with
  | nil =>
      intro acc b hacc
      rw [List.nil_append, deframe_aux_nil, deframe_eq]
      rw [deframe_aux_no_delim acc.reverse [] b (by simpa using hacc)]
      simp
  | cons c a ih =>
      intro acc b hacc
      by_cases hc : c = record_delimiter
      · subst hc
        rw [List.cons_append, deframe_aux_delim, deframe_aux_delim]
        rw [ih [] b (by simp)]
        simp
      · rw [List.cons_append, deframe_aux_cons acc hc, deframe_aux_cons acc hc]
        refine ih (c :: acc) b ?_
        intro hmem
        rcases List.mem_cons.mp hmem with h1 | h2
        · exact hc h1.symm
        · exact hacc h2

theorem deframe_encode :
    ∀ (rs : List (List Nat)) (tail : List Nat), (∀ r ∈ rs, record_delimiter ∉ r) →
      deframe_aux [] (encode_records rs ++ tail) =
        (rs ++ (deframe_aux [] tail).1, (deframe_aux [] tail).2) := by
  intro rs
  induction rs with
  | nil => intro tail _; simp [encode_records]
  | cons r rs ih =>
      intro tail h
      have hr : record_delimiter ∉ r := h r (List.mem_cons_self _ _)
      have hsplit : encode_records (r :: rs) ++ tail =
          r ++ (record_delimiter :: (encode_records rs ++ tail)) := by
        simp [encode_records]
      rw [hsplit, deframe_aux_no_delim r [] _ hr, List.append_nil, deframe_aux_delim]
      rw [ih tail (fun r2 hr2 => h r2 (List.mem_cons_of_mem _ hr2))]
      simp

theorem receive_loop_deframe :
    ∀ (chunks : List (List Nat)) (buf : List Nat), record_delimiter ∉ buf →
      receive_loop buf chunks = (deframe_aux [] (buf ++ chunks.flatten)).1 := by
  intro chunks
  induction chunks with
  | nil =>
      intro buf hb
      simp [receive_loop, deframe_aux_all [] buf hb]
  | cons chunk more ih =>
      intro buf hb
      simp only [receive_loop, List.flatten_cons, deframe_eq]
      rw [ih _ (deframe_aux_snd_no_delim (buf ++ chunk) [] (by simp))]
      rw [show buf ++ (chunk ++ more.flatten) = (buf ++ chunk) ++ more.flatten from
        (List.append_assoc _ _ _).symm]
      rw [deframe_aux_append (buf ++ chunk) [] more.flatten (by simp)]
      simp [deframe_eq]

/-- Claim C3: within one connected session, for every sequence of
well-formed records put on the wire (each terminated by the delimiter and
containing none internally) and every way the transport fragments that byte
stream into reads, the receive loop delivers to the callback exactly one
invocation per record, in arrival order. -/
theorem receive_loop_delivers_in_order (rs chunks : List (List Nat))
    (hwf : ∀ r ∈ rs, record_delimiter ∉ r)
    (harrive : chunks.flatten = encode_records rs) :
    receive_loop [] chunks = rs := by
  rw [receive_loop_deframe chunks [] (by simp)]
  rw [List.nil_append, harrive]
  rw [show encode_records rs = encode_records rs ++ [] from (List.append_nil _).symm]
  rw [deframe_encode rs [] hwf]
  simp [deframe_aux]

/-- Witness for claim C3: two records, fragmented into three partial reads
that split records across read boundaries, are delivered exactly once each
and in order. -/
theorem receive_loop_delivers_in_order_witness :
    receive_loop [] [[65], [10, 66], [67, 10]] = [[65], [66, 67]] :=
  receive_loop_delivers_in_order [[65], [66, 67]] [[65], [10, 66], [67, 10]]
    (by decide) (by decide)

/-- Embedding of `struct cairo_swbuf_t` used by src/ui/cairo.c: the surface
dimensions, the presence of the cairo surface and context (non-NULL
pointers modelled as flags), and the surface pixel words. -/
structure cairo_swbuf_t where
  width : Nat
  height : Nat
  surface : Bool
  ctx : Bool
  data : List Nat
deriving DecidableEq

/-- Embedding of `free_swbuf` (src/ui/cairo.c lines 227 to 234): a NULL
buffer is an early return that touches nothing; otherwise the context and
surface are destroyed and the buffer block is released. `heap` counts live
buffer blocks. -/
def free_swbuf (buffer : Option cairo_swbuf_t) (heap : Nat) : Nat :=
  match buffer with
  | none => heap
  | some _ => heap - 1

/-- Embedding of `create_swbuf` (src/ui/cairo.c lines 31 to 48):
`calloc_ok` models the calloc of the buffer block succeeding, `surface_ok`
models `cairo_image_surface_create` returning a surface. On calloc failure
nothing was allocated and NULL is returned; on surface failure the
partially built buffer is released through `free_swbuf` and NULL is
returned; otherwise the fully initialised buffer is returned. -/
def create_swbuf (w h : Nat) (calloc_ok surface_ok : Bool) (heap : Nat) :
    Option cairo_swbuf_t × Nat :=
  if calloc_ok = false then (none, heap)
  else
    let buffer : cairo_swbuf_t :=
      { width := w, height := h, surface := false, ctx := false,
        data := List.replicate (w * h) 0 }
    if surface_ok = false then (none, free_swbuf (some buffer) (heap + 1))
    else (some { buffer with surface := true, ctx := true }, heap + 1)

/-- Claim C9: `free_swbuf` is a no-op on NULL, and `create_swbuf` returns
NULL exactly when the buffer allocation or the surface creation fails, in
which case no buffer block stays live; on success the returned buffer is
fully initialised (surface and context present). -/
theorem free_create_swbuf_safe (w h : Nat) (calloc_ok surface_ok : Bool) (heap : Nat) :
    free_swbuf none heap = heap ∧
    ((create_swbuf w h calloc_ok surface_ok heap).1 = none ↔
      (calloc_ok && surface_ok) = false) ∧
    ((calloc_ok && surface_ok) = false →
      (create_swbuf w h calloc_ok surface_ok heap).2 = heap) ∧
    ((calloc_ok && surface_ok) = true →
      ∃ b, (create_swbuf w h calloc_ok surface_ok heap).1 = some b ∧
        b.surface = true ∧ b.ctx = true) := by
  cases calloc_ok <;> cases surface_ok <;> simp [create_swbuf, free_swbuf]

/-- Witness for claim C9 at a failing surface creation on a concrete heap. -/
theorem free_create_swbuf_safe_witness :
    free_swbuf none 5 = 5 ∧
    ((create_swbuf 2 3 true false 5).1 = none ↔ (true && false) = false) ∧
    ((true && false) = false → (create_swbuf 2 3 true false 5).2 = 5) ∧
    ((true && false) = true →
      ∃ b, (create_swbuf 2 3 true false 5).1 = some b ∧
        b.surface = true ∧ b.ctx = true) :=
  free_create_swbuf_safe 2 3 true false 5

/-- Embedding of `swbuf_get_pixel` (src/ui/cairo.c lines 60 to 63): read
the 32-bit pixel word at row `y`, column `x` of the surface data and mask
off the alpha byte. -/
def swbuf_get_pixel (surface : cairo_swbuf_t) (x y : Nat) : Nat :=
  (surface.data.getD (y * surface.width + x) 0) &&& 0xffffff

/-- Claim C10: for every surface and every in-bounds pixel coordinate, the
value `swbuf_get_pixel` returns is at most 0xffffff, the alpha byte being
masked off. -/
theorem swbuf_get_pixel_masked (surface : cairo_swbuf_t) (x y : Nat)
    (hx : x < surface.width) (hy : y < surface.height) :
    swbuf_get_pixel surface x y ≤ 0xffffff :=
  Nat.and_le_right

/-- Concrete one-pixel surface whose stored pixel word has a nonzero alpha
byte. -/
def test_swbuf : cairo_swbuf_t :=
  { width := 1, height := 1, surface := true, ctx := true, data := [4023233417] }

/-- Witness for claim C10 on a concrete surface whose pixel word has alpha
bits set. -/
theorem swbuf_get_pixel_masked_witness :
    0 < test_swbuf.width ∧ 0 < test_swbuf.height ∧
      swbuf_get_pixel test_swbuf 0 0 ≤ 0xffffff :=
  ⟨by decide, by decide, swbuf_get_pixel_masked test_swbuf 0 0 (by decide) (by decide)⟩

/-- Embedding of `enum xanchor_t` as used in src/ui/cairo.c (the header
defining it is not under src/; the enumerators appear in the switches of
swbuf_calculate_placement). -/
inductive xanchor_t where
  | XPOS_LEFT
  | XPOS_CENTER
  | XPOS_RIGHT
deriving DecidableEq

/-- Embedding of `enum yanchor_t` as used in src/ui/cairo.c. -/
inductive yanchor_t where
  | YPOS_TOP
  | YPOS_CENTER
  | YPOS_BOTTOM
deriving DecidableEq

/-- Embedding of the anchor pair carried by `struct anchored_placement_t`
(field names follow their uses in src/ui/cairo.c). -/
structure anchor_xy_t where
  x : xanchor_t
  y : yanchor_t

/-- Embedding of `struct anchored_placement_t` as used in src/ui/cairo.c:
destination and source anchors plus the signed user offsets. -/
structure anchored_placement_t where
  dst_anchor : anchor_xy_t
  src_anchor : anchor_xy_t
  xoffset : Int
  yoffset : Int

/-- Signed coordinate pair of `struct placement_t` (printed with signed
format in src/ui/cairo.c). -/
structure coord_pair_t where
  x : Int
  y : Int

/-- Embedding of `struct placement_t` as used in src/ui/cairo.c. -/
structure placement_t where
  top_left : coord_pair_t
  bottom_right : coord_pair_t

/-- Embedding of `swbuf_calculate_placement` (src/ui/cairo.c lines 83 to
161): place the destination anchor of the surface, shift by the source
anchor of the object (unsigned halving kept as Nat division), add the user
offsets, then derive the bottom-right corner from the top-left corner and
the object dimensions. -/
def swbuf_calculate_placement (surface : cairo_swbuf_t)
    (anchored_placement : anchored_placement_t) (obj_width obj_height : Nat) :
    placement_t :=
  let x0 : Int :=
    match anchored_placement.dst_anchor.x with
    | .XPOS_LEFT => 0
    | .XPOS_CENTER => ((surface.width / 2 : Nat) : Int)
    | .XPOS_RIGHT => (surface.width : Int)
  let y0 : Int :=
    match anchored_placement.dst_anchor.y with
    | .YPOS_TOP => 0
    | .YPOS_CENTER => ((surface.height / 2 : Nat) : Int)
    | .YPOS_BOTTOM => (surface.height : Int)
  let x1 : Int :=
    match anchored_placement.src_anchor.x with
    | .XPOS_LEFT => x0
    | .XPOS_CENTER => x0 - ((obj_width / 2 : Nat) : Int)
    | .XPOS_RIGHT => x0 - (obj_width : Int)
  let y1 : Int :=
    match anchored_placement.src_anchor.y with
    | .YPOS_TOP => y0
    | .YPOS_CENTER => y0 - ((obj_height / 2 : Nat) : Int)
    | .YPOS_BOTTOM => y0 - (obj_height : Int)
  let x2 : Int := x1 + anchored_placement.xoffset
  let y2 : Int := y1 + anchored_placement.yoffset
  { top_left := { x := x2, y := y2 },
    bottom_right := { x := x2 + (obj_width : Int), y := y2 + (obj_height : Int) } }

/-- Claim C8: for every surface, every anchored placement and every object
size, the placement computed by `swbuf_calculate_placement` has its
bottom-right corner exactly the top-left corner shifted by the object
width and height. -/
theorem swbuf_placement_consistent (surface : cairo_swbuf_t)
    (anchored_placement : anchored_placement_t) (obj_width obj_height : Nat) :
    (swbuf_calculate_placement surface anchored_placement obj_width obj_height).bottom_right.x =
      (swbuf_calculate_placement surface anchored_placement obj_width obj_height).top_left.x
        + (obj_width : Int) ∧
    (swbuf_calculate_placement surface anchored_placement obj_width obj_height).bottom_right.y =
      (swbuf_calculate_placement surface anchored_placement obj_width obj_height).top_left.y
        + (obj_height : Int) :=
  ⟨rfl, rfl⟩
